import Mathlib

/-!
# Verification of the bhumio client-resident consistency engine

Shallow embedding of the core logic of the repository:

* the Out-of-Order Event Reconciler (`processEvent` in
  `src/app/(pages)/out-of-order/page.tsx`),
* the Idempotent Submission Engine (`processTransaction` and the resume
  `useEffect` in `src/app/page.tsx`, second document),
* the idempotency backend (`POST` in `src/app/api/form-consistent/route.ts`),
* the pagination deduplication client (`fetchPage` in
  `src/app/(pages)/quirky/page.tsx`).

JavaScript numbers used as logical timestamps are modelled as `Int`
(only order comparisons occur); string keys stay `String`; the JS `Map`
is modelled as a function `String → Option _` with pointwise update,
which matches `Map.get`/`Map.set` observational semantics.
-/

namespace Bhumio

/-! ## Out-of-Order Event Reconciler (out-of-order/page.tsx) -/

/-- `type EventType = 'created' | 'updated' | 'deleted'` -/
inductive EventType where
  | created
  | updated
  | deleted
deriving DecidableEq, Repr

/-- `interface ServerEvent { id; timestamp; type; payload }` -/
structure ServerEvent where
  id : String
  timestamp : Int
  type : EventType
  payload : String
deriving DecidableEq, Repr

/-- `interface ItemState { id; lastUpdated; type; payload }` -/
structure ItemState where
  id : String
  lastUpdated : Int
  type : EventType
  payload : String
deriving DecidableEq, Repr

/-- The reconciliation map `stateMap : Map<string, ItemState>`,
modelled extensionally by its lookup function. -/
def StateMap : Type := String → Option ItemState

/-- The empty map (`new Map()`). -/
def StateMap.empty : StateMap := fun _ => none

/-- The record written by `currentMap.set(newEvent.id, {...})`:
the snapshot built from the event. -/
def snapshotOf (e : ServerEvent) : ItemState :=
  { id := e.id, lastUpdated := e.timestamp, type := e.type, payload := e.payload }

/-- `currentMap.set(newEvent.id, snapshotOf e)` as a map update. -/
def StateMap.set (m : StateMap) (e : ServerEvent) : StateMap :=
  fun k => if k = e.id then some (snapshotOf e) else m k

/-- `processEvent` (out-of-order/page.tsx lines 74–98), restricted to its
effect on the reconciliation map (the event-log prepend and the UI refresh
are presentation):

```
const existingRecord = currentMap.get(newEvent.id);
if (existingRecord && existingRecord.lastUpdated >= newEvent.timestamp) return;
currentMap.set(newEvent.id, {...});
```
-/
def processEvent (m : StateMap) (e : ServerEvent) : StateMap :=
  match m e.id with
  | some existingRecord =>
      if existingRecord.lastUpdated ≥ e.timestamp then m else m.set e
  | none => m.set e

/-- Applying a whole stream of events in arrival order. -/
def applyAll (m : StateMap) (es : List ServerEvent) : StateMap :=
  es.foldl processEvent m

@[simp] theorem applyAll_nil (m : StateMap) : applyAll m [] = m := rfl

@[simp] theorem applyAll_cons (m : StateMap) (e : ServerEvent) (es : List ServerEvent) :
    applyAll m (e :: es) = applyAll (processEvent m e) es := rfl

theorem StateMap.set_apply_self (m : StateMap) (e : ServerEvent) :
    (m.set e) e.id = some (snapshotOf e) := by
  simp [StateMap.set]

theorem StateMap.set_apply_ne (m : StateMap) (e : ServerEvent) {k : String}
    (hk : k ≠ e.id) : (m.set e) k = m k := by
  simp [StateMap.set, hk]

/-- One step never changes keys other than the event's id, and at the
event's id it either keeps the stored record (when not strictly newer)
or writes the snapshot of the event. -/
theorem processEvent_apply_ne (m : StateMap) (e : ServerEvent) {k : String}
    (hk : k ≠ e.id) : (processEvent m e) k = m k := by
  unfold processEvent
  cases hme : m e.id with
  | none => exact m.set_apply_ne e hk
  | some r =>
      by_cases hle : r.lastUpdated ≥ e.timestamp
      · simp [hle]
      · simp [hle, m.set_apply_ne e hk]

/-- If the stored record for the event's id is at least as new,
the step returns the map unchanged. -/
theorem processEvent_stale (m : StateMap) (e : ServerEvent) {r : ItemState}
    (hr : m e.id = some r) (hts : e.timestamp ≤ r.lastUpdated) :
    processEvent m e = m := by
  unfold processEvent
  rw [hr]
  simp [ge_iff_le, hts]

/-- If no record is stored, or the stored record is strictly older,
the step writes the event's snapshot. -/
theorem processEvent_fresh (m : StateMap) (e : ServerEvent)
    (h : m e.id = none ∨ ∃ r, m e.id = some r ∧ r.lastUpdated < e.timestamp) :
    processEvent m e = m.set e := by
  unfold processEvent
  rcases h with hnone | ⟨r, hr, hlt⟩
  · rw [hnone]
  · rw [hr]
    simp [ge_iff_le, not_le.mpr hlt, hlt.not_le]

/-- A stream of events that are all stale with respect to the record
stored at key `i` leaves key `i` unchanged (events for other ids may
update their own keys). -/
theorem applyAll_stale_at (i : String) (r : ItemState) :
    ∀ (es : List ServerEvent) (m : StateMap), m i = some r →
      (∀ x ∈ es, x.timestamp < r.lastUpdated) → applyAll m es i = some r := by
  intro es
  induction es with
  | nil => intro m hm _; exact hm
  | cons x xs ih =>
      intro m hm hlt
      rw [applyAll_cons]
      apply ih
      · by_cases hx : x.id = i
        · have : processEvent m x = m := by
            apply processEvent_stale m x (r := r)
            · rw [hx]; exact hm
            · exact le_of_lt (hlt x (List.mem_cons_self x xs))
          rw [this]; exact hm
        · rw [processEvent_apply_ne m x (fun h => hx h.symm)]
          exact hm
      · intro y hy
        exact hlt y (List.mem_cons_of_mem x hy)

/-- A step either leaves a key as it was, or (only at the event's own id)
stores the event's snapshot. -/
theorem processEvent_apply_cases (m : StateMap) (x : ServerEvent) (i : String) :
    (processEvent m x) i = m i ∨
      (x.id = i ∧ (processEvent m x) i = some (snapshotOf x)) := by
  by_cases hx : i = x.id
  · unfold processEvent
    cases hmx : m x.id with
    | none => exact Or.inr ⟨hx.symm, by rw [hx]; exact m.set_apply_self x⟩
    | some r =>
        by_cases hle : r.lastUpdated ≥ x.timestamp
        · simp [hle]
        · exact Or.inr ⟨hx.symm, by simp [hle, hx, m.set_apply_self x]⟩
  · exact Or.inl (processEvent_apply_ne m x hx)

/-- If every event of the stream addressed at key `i` is not strictly newer
than the record stored there, the whole stream leaves key `i` unchanged. -/
theorem applyAll_preserved (i : String) (r : ItemState) :
    ∀ (es : List ServerEvent) (m : StateMap), m i = some r →
      (∀ x ∈ es, x.id = i → x.timestamp ≤ r.lastUpdated) →
      applyAll m es i = some r := by
  intro es
  induction es with
  | nil => intro m hm _; exact hm
  | cons x xs ih =>
      intro m hm hle
      rw [applyAll_cons]
      apply ih
      · by_cases hx : x.id = i
        · have : processEvent m x = m := by
            apply processEvent_stale m x (r := r)
            · rw [hx]; exact hm
            · exact hle x (List.mem_cons_self x xs) hx
          rw [this]; exact hm
        · rw [processEvent_apply_ne m x (fun h => hx h.symm)]; exact hm
      · intro y hy
        exact hle y (List.mem_cons_of_mem x hy)

/-- In a list whose timestamps are pairwise distinct, two members with
equal timestamps are the same event. -/
theorem pairwise_ts_inj {es : List ServerEvent}
    (hdist : es.Pairwise (fun a b => a.timestamp ≠ b.timestamp))
    {x y : ServerEvent} (hx : x ∈ es) (hy : y ∈ es)
    (hts : x.timestamp = y.timestamp) : x = y := by
  induction es with
  | nil => cases hx
  | cons a l ih =>
      have hhd := (List.pairwise_cons.mp hdist).1
      have htl := (List.pairwise_cons.mp hdist).2
      rcases List.mem_cons.mp hx with hxa | hxl
      · rcases List.mem_cons.mp hy with hya | hyl
        · rw [hxa, hya]
        · exact absurd (hxa ▸ hts) (hhd y hyl)
      · rcases List.mem_cons.mp hy with hya | hyl
        · exact absurd (hya ▸ hts.symm) (hhd x hxl)
        · exact ih htl hxl hyl

/-- Core last-writer-wins lemma: if `e` is a member of the stream that is
strictly newer than every other event of the stream addressed at its id,
and the record stored at `e.id` (if any) is strictly older than `e`, then
after the whole stream key `e.id` holds the snapshot of `e`. -/
theorem applyAll_max (e : ServerEvent) :
    ∀ (es : List ServerEvent) (m : StateMap), e ∈ es →
      (∀ x ∈ es, x.id = e.id → x = e ∨ x.timestamp < e.timestamp) →
      (m e.id = none ∨ ∃ r, m e.id = some r ∧ r.lastUpdated < e.timestamp) →
      applyAll m es e.id = some (snapshotOf e) := by
  intro es
  induction es with
  | nil => intro m he; cases he
  | cons x xs ih =>
      intro m he hstrict hm
      by_cases hxe : x = e
      · rw [applyAll_cons, hxe, processEvent_fresh m e hm]
        apply applyAll_preserved e.id (snapshotOf e) xs (StateMap.set m e)
          (m.set_apply_self e)
        intro y hy hyid
        rcases hstrict y (List.mem_cons_of_mem x hy) hyid with hye | hlt
        · simp [snapshotOf, hye]
        · exact le_of_lt hlt
      · have hexs : e ∈ xs := by
          rcases List.mem_cons.mp he with h | h
          · exact absurd h.symm hxe
          · exact h
        rw [applyAll_cons]
        apply ih (processEvent m x) hexs
        · intro y hy hyid
          exact hstrict y (List.mem_cons_of_mem x hy) hyid
        · rcases processEvent_apply_cases m x e.id with heq | ⟨hxid, heq⟩
          · rw [heq]; exact hm
          · rcases hstrict x (List.mem_cons_self x xs) hxid with h | hlt
            · exact absurd h hxe
            · exact Or.inr ⟨snapshotOf x, heq, hlt⟩

/-- Concrete events of the spec's reference scenario for entity `A`. -/
def evA100 : ServerEvent :=
  { id := "A", timestamp := 100, type := EventType.created, payload := "Order A - PENDING" }

def evA105 : ServerEvent :=
  { id := "A", timestamp := 105, type := EventType.updated, payload := "Order A - CONFIRMED" }

def evA110 : ServerEvent :=
  { id := "A", timestamp := 110, type := EventType.updated, payload := "Order A - SHIPPED" }

def evAdel : ServerEvent :=
  { id := "A", timestamp := 120, type := EventType.deleted, payload := "Order A - DELETED" }

def evA130 : ServerEvent :=
  { id := "A", timestamp := 130, type := EventType.created, payload := "Order A - RECREATED" }

/-- C1: for a fixed finite set of events for one `entity_id` with pairwise
distinct `version_time` values, applying them via `processEvent` in any
permutation order, starting from a map with no snapshot for that id, yields
the same final snapshot for that id: the snapshot built from the event with
the maximum `version_time`. -/
theorem reconciler_lww_order_independent
    (i : String) (m : StateMap) (es es' : List ServerEvent) (e : ServerEvent)
    (hids : ∀ x ∈ es, x.id = i)
    (hdist : es.Pairwise fun a b => a.timestamp ≠ b.timestamp)
    (hperm : es.Perm es')
    (hm : m i = none)
    (he : e ∈ es)
    (hmax : ∀ x ∈ es, x.timestamp ≤ e.timestamp) :
    applyAll m es i = some (snapshotOf e) ∧ applyAll m es' i = some (snapshotOf e) := by
  have hei : e.id = i := hids e he
  have hstrict : ∀ x ∈ es, x.id = e.id → x = e ∨ x.timestamp < e.timestamp := by
    intro x hx _
    rcases lt_or_eq_of_le (hmax x hx) with hlt | heq
    · exact Or.inr hlt
    · exact Or.inl (pairwise_ts_inj hdist hx he heq)
  have hme : m e.id = none := by rw [hei]; exact hm
  constructor
  · rw [← hei]
    exact applyAll_max e es m he hstrict (Or.inl hme)
  · rw [← hei]
    exact applyAll_max e es' m (hperm.mem_iff.mp he)
      (fun x hx hid => hstrict x (hperm.mem_iff.mpr hx) hid) (Or.inl hme)

/-- Witness for C1 at the spec's reference scenario: the three events for
entity `A` delivered in order `[110, 100, 105]` produce the same snapshot
as in-order delivery, namely the one of the `t = 110` event. -/
theorem reconciler_lww_order_independent_witness :
    applyAll StateMap.empty [evA100, evA105, evA110] "A" = some (snapshotOf evA110) ∧
    applyAll StateMap.empty [evA110, evA100, evA105] "A" = some (snapshotOf evA110) :=
  reconciler_lww_order_independent "A" StateMap.empty
    [evA100, evA105, evA110] [evA110, evA100, evA105] evA110
    (by decide) (by decide) (by decide) rfl (by decide) (by decide)

/-- C2: a single `processEvent` call replaces the snapshot for
`event.entity_id` with the snapshot built from the event exactly when no
snapshot exists for that id or the event is strictly newer (touching no
other key); otherwise (`event.version_time ≤` stored `version_time`,
including the equal case) the event is discarded and the map is returned
unchanged — a normal outcome, not an error (the embedding is total). -/
theorem processEvent_replace_or_discard (m : StateMap) (e : ServerEvent) :
    ((m e.id = none ∨ ∃ r, m e.id = some r ∧ r.lastUpdated < e.timestamp) →
      (processEvent m e) e.id = some (snapshotOf e) ∧
        ∀ k, k ≠ e.id → (processEvent m e) k = m k) ∧
    (∀ r, m e.id = some r → e.timestamp ≤ r.lastUpdated → processEvent m e = m) := by
  constructor
  · intro h
    rw [processEvent_fresh m e h]
    exact ⟨m.set_apply_self e, fun k hk => m.set_apply_ne e hk⟩
  · intro r hr hle
    exact processEvent_stale m e hr hle

/-- Witness for C2: a first event for `A` is stored; an older event arriving
afterwards (100 ≤ 105) is discarded, leaving the map unchanged; and an
event with equal `version_time` is also discarded. -/
theorem processEvent_replace_or_discard_witness :
    (processEvent StateMap.empty evA100) evA100.id = some (snapshotOf evA100) ∧
    processEvent (processEvent StateMap.empty evA105) evA100 =
      processEvent StateMap.empty evA105 ∧
    processEvent (processEvent StateMap.empty evA105) evA105 =
      processEvent StateMap.empty evA105 := by
  refine ⟨?_, ?_, ?_⟩
  · exact ((processEvent_replace_or_discard StateMap.empty evA100).1 (Or.inl rfl)).1
  · exact (processEvent_replace_or_discard (processEvent StateMap.empty evA105) evA100).2
      (snapshotOf evA105) rfl (by decide)
  · exact (processEvent_replace_or_discard (processEvent StateMap.empty evA105) evA105).2
      (snapshotOf evA105) rfl (by decide)

/-- C3: once a `deleted` tombstone with `version_time = T` is stored for an
entity, no stream of further events that are all strictly older than `T`
and not `deleted` moves that entity's stored kind away from `deleted`
(indeed the stored snapshot is unchanged); a `created`/`updated` event
strictly newer than `T` is still accepted and replaces the tombstone. -/
theorem tombstone_finality (m : StateMap) (i : String) (r : ItemState)
    (es : List ServerEvent) (e' : ServerEvent)
    (hm : m i = some r) (hdel : r.type = EventType.deleted)
    (hstale : ∀ x ∈ es, x.timestamp < r.lastUpdated ∧ x.type ≠ EventType.deleted) :
    (applyAll m es i = some r ∧ r.type = EventType.deleted) ∧
      (e'.id = i → r.lastUpdated < e'.timestamp →
        (processEvent (applyAll m es) e') i = some (snapshotOf e')) := by
  have h1 : applyAll m es i = some r :=
    applyAll_stale_at i r es m hm (fun x hx => (hstale x hx).1)
  refine ⟨⟨h1, hdel⟩, ?_⟩
  intro hid hlt
  have hfresh : processEvent (applyAll m es) e' = (applyAll m es).set e' := by
    apply processEvent_fresh
    exact Or.inr ⟨r, by rw [hid]; exact h1, hlt⟩
  rw [hfresh, ← hid]
  exact (applyAll m es).set_apply_self e'

/-- Witness for C3: after a tombstone at `T = 120` for entity `A`, the stale
events at 100 and 105 leave the tombstone in place, while a `created` event
at 130 replaces it. -/
theorem tombstone_finality_witness :
    (applyAll (processEvent StateMap.empty evAdel) [evA100, evA105] "A" =
        some (snapshotOf evAdel) ∧
      (snapshotOf evAdel).type = EventType.deleted) ∧
    (processEvent (applyAll (processEvent StateMap.empty evAdel) [evA100, evA105]) evA130) "A" =
      some (snapshotOf evA130) := by
  have h := tombstone_finality (processEvent StateMap.empty evAdel) "A"
    (snapshotOf evAdel) [evA100, evA105] evA130 rfl rfl (by decide)
  exact ⟨h.1, h.2 rfl (by decide)⟩

/-! ## Idempotent Submission Engine (page.tsx, eventually-consistent form) -/

/-- `type TransactionStatus = 'pending' | 'retrying' | 'success' | 'error'`.
`StatusBadge` renders `success` as "Confirmed" and `error` as "Failed",
matching the spec's `confirmed`/`failed`. -/
inductive TransactionStatus where
  | pending
  | retrying
  | success
  | error
deriving DecidableEq, Repr, Fintype

/-- `interface Transaction { id; email; amount; status; timestamp }`.
`id` is the idempotency key.  Note: there is no `attempt_count` field. -/
structure Transaction where
  id : String
  email : String
  amount : String
  status : TransactionStatus
  timestamp : Int
deriving DecidableEq, Repr

/-- `const MAX_RETRIES = 5` in `processTransaction`. -/
def MAX_RETRIES : Nat := 5

/-- `const RETRY_DELAY = 2000` in `processTransaction` (milliseconds). -/
def RETRY_DELAY : Nat := 2000

/-- Outcome of one `fetch('/api/form-consistent')` as discriminated by
`processTransaction`: `ok` (`response.ok`), `hardFail` (non-ok other than
503, e.g. 400/500), `transientFail` (a 503 — re-thrown as an error — or a
thrown network failure; both reach the `catch` block). -/
inductive FetchOutcome where
  | ok
  | hardFail
  | transientFail
deriving DecidableEq, Repr

/-- Observable effects of one (possibly recursive) `processTransaction`
invocation chain. -/
structure SubmitRun where
  statusUpdates : List TransactionStatus
  attempts : Nat
  delays : List Nat
deriving DecidableEq, Repr

/-- `processTransaction(tx, attempt)` (page.tsx lines 167–209), driven by
the list of outcomes the transport returns to successive fetches:

```
if (attempt > 1) updateTransactionStatus(tx.id, 'retrying');
try { fetch(...); if 503 throw; if ok -> 'success' else -> 'error' }
catch { if (attempt < MAX_RETRIES) setTimeout(retry, RETRY_DELAY)
        else -> 'error' }
```

`statusUpdates` records the `updateTransactionStatus` calls in order,
`attempts` the number of fetches issued, `delays` the delays passed to
`setTimeout`.  An empty outcome list models a fetch still in flight:
the fetch was issued but no status update follows yet. -/
def processTransaction (outcomes : List FetchOutcome) (attempt : Nat) : SubmitRun :=
  let pre : List TransactionStatus :=
    if attempt > 1 then [TransactionStatus.retrying] else []
  match outcomes with
  | [] => { statusUpdates := pre, attempts := 1, delays := [] }
  | FetchOutcome.ok :: _ =>
      { statusUpdates := pre ++ [TransactionStatus.success], attempts := 1, delays := [] }
  | FetchOutcome.hardFail :: _ =>
      { statusUpdates := pre ++ [TransactionStatus.error], attempts := 1, delays := [] }
  | FetchOutcome.transientFail :: rest =>
      if attempt < MAX_RETRIES then
        let r := processTransaction rest (attempt + 1)
        { statusUpdates := pre ++ r.statusUpdates, attempts := 1 + r.attempts,
          delays := RETRY_DELAY :: r.delays }
      else
        { statusUpdates := pre ++ [TransactionStatus.error], attempts := 1, delays := [] }

/-- C4: an Operation whose every delivery attempt is a transient failure
undergoes exactly `MAX_RETRIES = 5` fetches — never more — its status
updates are four `retrying` marks followed by a final `error` ("Failed"),
and every retry is scheduled with the fixed 2000 ms delay. -/
theorem submission_retry_bound (outcomes : List FetchOutcome)
    (hall : ∀ o ∈ outcomes, o = FetchOutcome.transientFail)
    (hlen : MAX_RETRIES ≤ outcomes.length) :
    (processTransaction outcomes 1).attempts = MAX_RETRIES ∧
    (processTransaction outcomes 1).statusUpdates =
      List.replicate (MAX_RETRIES - 1) TransactionStatus.retrying ++
        [TransactionStatus.error] ∧
    (processTransaction outcomes 1).delays =
      List.replicate (MAX_RETRIES - 1) RETRY_DELAY := by
  match outcomes with
  | [] => simp [MAX_RETRIES] at hlen
  | [_] => simp [MAX_RETRIES] at hlen
  | [_, _] => simp [MAX_RETRIES] at hlen
  | [_, _, _] => simp [MAX_RETRIES] at hlen
  | [_, _, _, _] => simp [MAX_RETRIES] at hlen
  | o1 :: o2 :: o3 :: o4 :: o5 :: rest =>
      have h1 := hall o1 (by simp)
      have h2 := hall o2 (by simp)
      have h3 := hall o3 (by simp)
      have h4 := hall o4 (by simp)
      have h5 := hall o5 (by simp)
      subst h1; subst h2; subst h3; subst h4; subst h5
      refine ⟨?_, ?_, ?_⟩ <;>
        simp [processTransaction, MAX_RETRIES, RETRY_DELAY, List.replicate]

/-- Witness for C4: five straight transient failures yield five attempts,
four retry marks then `error`, and four 2000 ms delays. -/
theorem submission_retry_bound_witness :
    (processTransaction (List.replicate MAX_RETRIES FetchOutcome.transientFail) 1).attempts =
        MAX_RETRIES ∧
    (processTransaction (List.replicate MAX_RETRIES FetchOutcome.transientFail) 1).statusUpdates =
      List.replicate (MAX_RETRIES - 1) TransactionStatus.retrying ++
        [TransactionStatus.error] ∧
    (processTransaction (List.replicate MAX_RETRIES FetchOutcome.transientFail) 1).delays =
      List.replicate (MAX_RETRIES - 1) RETRY_DELAY :=
  submission_retry_bound (List.replicate MAX_RETRIES FetchOutcome.transientFail)
    (by decide) (by decide)

/-- The Submission Ledger transition relation: from `pending` and
`retrying` any of `retrying`/`success`/`error` may follow; `success`
("Confirmed") and `error` ("Failed") are terminal, with no outgoing
transition at all. -/
def ledgerStep : TransactionStatus → TransactionStatus → Bool
  | TransactionStatus.pending, TransactionStatus.retrying => true
  | TransactionStatus.pending, TransactionStatus.success => true
  | TransactionStatus.pending, TransactionStatus.error => true
  | TransactionStatus.retrying, TransactionStatus.retrying => true
  | TransactionStatus.retrying, TransactionStatus.success => true
  | TransactionStatus.retrying, TransactionStatus.error => true
  | _, _ => false

/-- The status history of one Operation: `handleSubmit` creates it as
`pending`, then `processTransaction` (from attempt 1) issues the updates. -/
def statusTrace (outcomes : List FetchOutcome) : List TransactionStatus :=
  TransactionStatus.pending :: (processTransaction outcomes 1).statusUpdates

/-- For a re-entrant call (`attempt ≥ 2`) the update list starts with
`retrying` and its adjacent pairs all satisfy `ledgerStep`. -/
theorem processTransaction_updates_chain :
    ∀ (outcomes : List FetchOutcome) (a : Nat), 2 ≤ a →
      (processTransaction outcomes a).statusUpdates.head? =
          some TransactionStatus.retrying ∧
      (processTransaction outcomes a).statusUpdates.Chain'
        (fun x y => ledgerStep x y = true) := by
  intro outcomes
  induction outcomes with
  | nil =>
      intro a ha
      have hgt : a > 1 := ha
      simp [processTransaction, hgt]
  | cons o rest ih =>
      intro a ha
      have hgt : a > 1 := ha
      cases o with
      | ok => simp [processTransaction, hgt, ledgerStep]
      | hardFail => simp [processTransaction, hgt, ledgerStep]
      | transientFail =>
          by_cases hlt : a < MAX_RETRIES
          · have hrec := ih (a + 1) (by omega)
            have hupd : (processTransaction (FetchOutcome.transientFail :: rest) a).statusUpdates =
                TransactionStatus.retrying ::
                  (processTransaction rest (a + 1)).statusUpdates := by
              simp [processTransaction, hgt, hlt]
            rw [hupd]
            refine ⟨rfl, List.Chain'.cons' hrec.2 ?_⟩
            intro y hy
            rw [hrec.1] at hy
            simp at hy
            subst hy
            rfl
          · simp [processTransaction, hgt, hlt, ledgerStep]

/-- The number of `retrying` updates a `processTransaction` chain starting
at attempt `a ≤ MAX_RETRIES` can issue is bounded: one for the re-entrant
mark (when `a > 1`) plus one per remaining retry budget. -/
theorem processTransaction_retrying_count :
    ∀ (outcomes : List FetchOutcome) (a : Nat), 1 ≤ a → a ≤ MAX_RETRIES →
      (processTransaction outcomes a).statusUpdates.count TransactionStatus.retrying ≤
        (if 1 < a then 1 else 0) + (MAX_RETRIES - a) := by
  intro outcomes
  induction outcomes with
  | nil =>
      intro a _ _
      by_cases hgt : 1 < a <;> simp [processTransaction, hgt]
  | cons o rest ih =>
      intro a h1 hle
      cases o with
      | ok =>
          by_cases hgt : 1 < a <;> simp [processTransaction, hgt]
      | hardFail =>
          by_cases hgt : 1 < a <;> simp [processTransaction, hgt]
      | transientFail =>
          by_cases hlt : a < MAX_RETRIES
          · have hrec := ih (a + 1) (by omega) (by omega)
            have hupd : (processTransaction (FetchOutcome.transientFail :: rest) a).statusUpdates =
                (if a > 1 then [TransactionStatus.retrying] else []) ++
                  (processTransaction rest (a + 1)).statusUpdates := by
              simp [processTransaction, hlt]
            rw [hupd, List.count_append]
            have hpre : (if a > 1 then [TransactionStatus.retrying] else []).count
                TransactionStatus.retrying ≤ if 1 < a then 1 else 0 := by
              by_cases hgt : 1 < a <;> simp [hgt]
            have hiff : (if 1 < a + 1 then 1 else 0) = 1 := by
              rw [if_pos (by omega)]
            rw [hiff] at hrec
            omega
          · by_cases hgt : 1 < a <;> simp [processTransaction, hgt, hlt]

/-- C7: every reachable status history of one Operation — `pending` at
creation followed by the updates of a `processTransaction` run, for any
transport behavior — starts at `pending`, steps only along `ledgerStep`
(so an Operation that reached `success`/`error` is never moved again, in
particular never back to `pending` or `retrying`), `retrying` is the only
status `ledgerStep` lets follow itself, and the self-loop is bounded by the
retry budget: at most `MAX_RETRIES - 1` `retrying` marks occur. -/
theorem ledger_state_machine (outcomes : List FetchOutcome) :
    (statusTrace outcomes).head? = some TransactionStatus.pending ∧
    (statusTrace outcomes).Chain' (fun x y => ledgerStep x y = true) ∧
    (∀ x y, ledgerStep x y = true →
      x ≠ TransactionStatus.success ∧ x ≠ TransactionStatus.error) ∧
    (∀ x, ledgerStep x x = true → x = TransactionStatus.retrying) ∧
    (statusTrace outcomes).count TransactionStatus.retrying ≤ MAX_RETRIES - 1 := by
  refine ⟨rfl, ?_, by decide, by decide, ?_⟩
  · unfold statusTrace
    match outcomes with
    | [] => simp [processTransaction]
    | FetchOutcome.ok :: rest => simp [processTransaction, ledgerStep]
    | FetchOutcome.hardFail :: rest => simp [processTransaction, ledgerStep]
    | FetchOutcome.transientFail :: rest =>
        have hrec := processTransaction_updates_chain rest 2 (le_refl 2)
        have hupd : (processTransaction (FetchOutcome.transientFail :: rest) 1).statusUpdates =
            (processTransaction rest 2).statusUpdates := by
          simp [processTransaction, MAX_RETRIES]
        rw [hupd]
        refine List.Chain'.cons' hrec.2 ?_
        intro y hy
        rw [hrec.1] at hy
        simp at hy
        subst hy
        rfl
  · unfold statusTrace
    have h := processTransaction_retrying_count outcomes 1 (le_refl 1) (by simp [MAX_RETRIES])
    simp at h
    simp [List.count_cons]
    omega

/-! ## Resumption Manager (page.tsx load-and-resume effect) -/

/-- The resume pass of the load `useEffect` (page.tsx lines 103–123): for
each persisted transaction whose status is `pending` or `retrying`,
`processTransaction(tx, 1)` is invoked.  Each list entry is the pair
(transaction, attempt argument passed). -/
def resumeInvocations (logs : List Transaction) : List (Transaction × Nat) :=
  logs.filterMap fun tx =>
    if tx.status = TransactionStatus.pending ∨ tx.status = TransactionStatus.retrying then
      some (tx, 1)
    else none

/-- A persisted Operation interrupted mid-retry, as the resume pass finds it. -/
def txK1 : Transaction :=
  { id := "K1", email := "jane@example.com", amount := "25",
    status := TransactionStatus.retrying, timestamp := 0 }

/-- Counterexample to C5: the resume pass re-invokes `processTransaction`
with the attempt argument `1` — the `Transaction` record carries no
`attempt_count` at all, so nothing is preserved — and an Operation that had
already made 4 delivery attempts before the restart undergoes 5 further
all-transient attempts after it: 9 total, exceeding `MAX_RETRIES = 5`. -/
theorem resume_not_preserving_counterexample :
    resumeInvocations [txK1] = [(txK1, 1)] ∧
    MAX_RETRIES <
      4 + (processTransaction (List.replicate MAX_RETRIES FetchOutcome.transientFail) 1).attempts := by
  constructor
  · rfl
  · decide

/-- C5 as amended: every Ledger entry found `pending` or `retrying` at
process start is re-entered into the submission engine with the attempt
argument reset to 1 (no attempt count is persisted), so a restart grants a
fresh budget: an all-transient run after the restart performs the full
`MAX_RETRIES` further attempts regardless of the pre-restart count. -/
theorem resume_resets_attempt (logs : List Transaction) (tx : Transaction)
    (hmem : tx ∈ logs)
    (hst : tx.status = TransactionStatus.pending ∨ tx.status = TransactionStatus.retrying) :
    (tx, 1) ∈ resumeInvocations logs ∧
    (processTransaction (List.replicate MAX_RETRIES FetchOutcome.transientFail) 1).attempts =
      MAX_RETRIES := by
  constructor
  · exact List.mem_filterMap.mpr ⟨tx, hmem, by rw [if_pos hst]⟩
  · decide

/-- Witness for the amended C5 at the concrete interrupted Operation. -/
theorem resume_resets_attempt_witness :
    (txK1, 1) ∈ resumeInvocations [txK1] ∧
    (processTransaction (List.replicate MAX_RETRIES FetchOutcome.transientFail) 1).attempts =
      MAX_RETRIES :=
  resume_resets_attempt [txK1] txK1 (List.mem_singleton.mpr rfl) (Or.inr rfl)

/-! ## Persistence load paths (C8) -/

/-- The load `useEffect` of the submission engine (page.tsx lines 103–123).
`saved` is `localStorage.getItem('bhumio-tx-logs')` (`none` when absent);
`parse` models `JSON.parse`, returning `none` when it throws.  The result
is the transaction list left in state and the final `isLoaded` flag: a
parse failure is caught (`console.error` only), the unreadable data is
dropped, and loading still completes. -/
def loadTxLogs (saved : Option String)
    (parse : String → Option (List Transaction)) : List Transaction × Bool :=
  match saved with
  | none => ([], true)
  | some s =>
    match parse s with
    | none => ([], true)
    | some logs => (logs, true)

/-- The hydration `useEffect` of the reconciler
(out-of-order/page.tsx lines 37–49): `JSON.parse` of the saved entries
feeds `new Map(parsedEntries)` (later entries win on duplicate keys, as in
JS `Map`); a parse failure is caught and the map stays empty. -/
def hydrateStateMap (saved : Option String)
    (parse : String → Option (List (String × ItemState))) : StateMap × Bool :=
  match saved with
  | none => (StateMap.empty, true)
  | some s =>
    match parse s with
    | none => (StateMap.empty, true)
    | some entries =>
        (fun k => (entries.reverse.find? fun p => p.1 = k).map Prod.snd, true)

/-- C8: for any persisted content whose parse fails, process start does not
crash (both load steps are total and complete with `isLoaded = true`), the
unreadable data is dropped (state stays empty), and the engine goes on
accepting new events: a fresh event applied after the corrupt load is
stored. -/
theorem load_survives_corrupt_store
    (sT sM : String)
    (parseT : String → Option (List Transaction))
    (parseM : String → Option (List (String × ItemState)))
    (hT : parseT sT = none) (hM : parseM sM = none) :
    loadTxLogs (some sT) parseT = ([], true) ∧
    hydrateStateMap (some sM) parseM = (StateMap.empty, true) ∧
    ∀ e : ServerEvent,
      (processEvent (hydrateStateMap (some sM) parseM).1 e) e.id = some (snapshotOf e) := by
  have h1 : loadTxLogs (some sT) parseT = ([], true) := by
    simp [loadTxLogs, hT]
  have h2 : hydrateStateMap (some sM) parseM = (StateMap.empty, true) := by
    simp [hydrateStateMap, hM]
  refine ⟨h1, h2, ?_⟩
  intro e
  rw [h2]
  rw [processEvent_fresh StateMap.empty e (Or.inl rfl)]
  exact StateMap.set_apply_self StateMap.empty e

/-- Witness for C8 at a concrete corrupt store: an unparseable string, the
always-failing parse, and the `t = 100` event accepted afterwards. -/
theorem load_survives_corrupt_store_witness :
    loadTxLogs (some "not-json") (fun _ => none) = ([], true) ∧
    hydrateStateMap (some "not-json") (fun _ => none) = (StateMap.empty, true) ∧
    (processEvent (hydrateStateMap (some "not-json") (fun _ => none)).1 evA100) evA100.id =
      some (snapshotOf evA100) := by
  have h := load_survives_corrupt_store "not-json" "not-json"
    (fun _ => none) (fun _ => none) rfl rfl
  exact ⟨h.1, h.2.1, h.2.2 evA100⟩

/-! ## Idempotency backend (api/form-consistent/route.ts) -/

/-- `interface TransactionRequest { email; amount; idempotencyKey }` as
destructured from `req.json()`.  Fields are `Option` since a JS body may
omit them; `amount` is a JS number modelled as `Int` (truthiness of a
number is `≠ 0`; `NaN` is not modelled). -/
structure TransactionRequest where
  email : Option String
  amount : Option Int
  idempotencyKey : Option String
deriving DecidableEq, Repr

/-- `interface StoredTransaction { email; amount; date }`; the `date` is the
logical time `now` at which the handler ran. -/
structure StoredTransaction where
  email : String
  amount : Int
  date : Int
deriving DecidableEq, Repr

/-- The module-level `processedTransactions : Map<string, StoredTransaction>`. -/
def TxStore : Type := String → Option StoredTransaction

def TxStore.empty : TxStore := fun _ => none

/-- The five responses the handler can produce. -/
inductive ApiResponse where
  | badRequest       -- 400 'Missing required fields'
  | alreadyProcessed -- 200 'Transaction already processed'
  | unavailable      -- 503 'Service temporarily unavailable'
  | recorded         -- 200 'Transaction recorded successfully'
  | serverError      -- 500 'An unexpected error occurred'
deriving DecidableEq, Repr

/-- The `POST` handler (route.ts lines 22–81).  `body = none` models
`req.json()` throwing (caught, 500).  `roll` is the `Math.random()` draw:
`< 0.3` yields the 503; `< 0.5` merely delays before the common success
path (timing is not modelled), so both success branches record the
transaction.  Falsy field checks (`!email || !amount || !idempotencyKey`)
reject `undefined`, the empty string and the number 0. -/
def POST (store : TxStore) (body : Option TransactionRequest) (roll : ℚ) (now : Int) :
    ApiResponse × TxStore :=
  match body with
  | none => (ApiResponse.serverError, store)
  | some b =>
    match b.email, b.amount, b.idempotencyKey with
    | some email, some amount, some idempotencyKey =>
        if email = "" ∨ amount = 0 ∨ idempotencyKey = "" then
          (ApiResponse.badRequest, store)
        else if (store idempotencyKey).isSome then
          (ApiResponse.alreadyProcessed, store)
        else if roll < 3 / 10 then
          (ApiResponse.unavailable, store)
        else
          (ApiResponse.recorded,
            fun k => if k = idempotencyKey then
                some { email := email, amount := amount, date := now }
              else store k)
    | _, _, _ => (ApiResponse.badRequest, store)

/-- On every path other than the `recorded` success, the transaction store
is left untouched. -/
theorem POST_store_unchanged (store : TxStore) (body : Option TransactionRequest)
    (roll : ℚ) (now : Int)
    (h : (POST store body roll now).1 ≠ ApiResponse.recorded) :
    (POST store body roll now).2 = store := by
  cases body with
  | none => rfl
  | some b =>
      rcases b with ⟨be, ba, bk⟩
      rcases be with _ | email <;> rcases ba with _ | amount <;> rcases bk with _ | key <;>
        try rfl
      simp only [POST] at h ⊢
      split_ifs at h ⊢ <;> first | rfl | exact absurd rfl h

/-- C6: a request carrying an idempotency key already recorded as accepted
(with well-formed fields, as any replay of the originally accepted request
has) is answered with the original success outcome — 200 'Transaction
already processed' — without reprocessing and without touching the stored
transaction; and on every failing path (400, 503, 500) the store is left
unchanged, so rejected tokens are never remembered. -/
theorem idempotent_replay (store : TxStore) (b : TransactionRequest)
    (roll : ℚ) (now : Int) (email : String) (amount : Int) (key : String)
    (t : StoredTransaction)
    (hbe : b.email = some email) (hbe' : email ≠ "")
    (hba : b.amount = some amount) (hba' : amount ≠ 0)
    (hbk : b.idempotencyKey = some key) (hbk' : key ≠ "")
    (hstore : store key = some t) :
    POST store (some b) roll now = (ApiResponse.alreadyProcessed, store) ∧
    ∀ (store' : TxStore) (body : Option TransactionRequest) (roll' : ℚ) (now' : Int),
      ((POST store' body roll' now').1 = ApiResponse.badRequest ∨
       (POST store' body roll' now').1 = ApiResponse.unavailable ∨
       (POST store' body roll' now').1 = ApiResponse.serverError) →
      (POST store' body roll' now').2 = store' := by
  constructor
  · rcases b with ⟨be, ba, bk⟩
    simp only at hbe hba hbk
    subst hbe; subst hba; subst hbk
    simp [POST, hbe', hba', hbk', hstore]
  · intro store' body roll' now' hfail
    apply POST_store_unchanged
    rcases hfail with h | h | h <;> rw [h] <;> decide

/-- The store holding one accepted transaction under key `K1`. -/
def storeK1 : TxStore :=
  fun k => if k = "K1" then
      some { email := "jane@example.com", amount := 25, date := 0 }
    else none

/-- The replayed request for key `K1`. -/
def reqK1 : TransactionRequest :=
  { email := some "jane@example.com", amount := some 25, idempotencyKey := some "K1" }

/-- Witness for C6: replaying `K1` returns the cached success and leaves the
store untouched; a malformed request (500 path) also leaves it untouched. -/
theorem idempotent_replay_witness :
    POST storeK1 (some reqK1) 0 1 = (ApiResponse.alreadyProcessed, storeK1) ∧
    (POST storeK1 none 0 1).2 = storeK1 := by
  have h := idempotent_replay storeK1 reqK1 0 1 "jane@example.com" 25 "K1"
    { email := "jane@example.com", amount := 25, date := 0 }
    rfl (by decide) rfl (by decide) rfl (by decide) rfl
  exact ⟨h.1, h.2 storeK1 none 0 1 (Or.inr (Or.inr rfl))⟩

/-- C10: the handler answers 400 'Missing required fields' for every parsed
body in which `email`, `amount` or `idempotencyKey` is absent or falsy —
including `amount = 0`, rejected although 0 is a well-formed number — and
the store is left unchanged. -/
theorem validation_rejects_falsy (store : TxStore) (b : TransactionRequest)
    (roll : ℚ) (now : Int)
    (h : b.email = none ∨ b.email = some "" ∨
         b.amount = none ∨ b.amount = some 0 ∨
         b.idempotencyKey = none ∨ b.idempotencyKey = some "") :
    POST store (some b) roll now = (ApiResponse.badRequest, store) := by
  rcases b with ⟨be, ba, bk⟩
  rcases be with _ | email <;> rcases ba with _ | amount <;> rcases bk with _ | key <;>
    simp_all [POST]

/-- Witness for C10: a body with `amount = 0` and the other fields present
is rejected with 400 and the store (here holding `K1`) is unchanged. -/
theorem validation_rejects_falsy_witness :
    POST storeK1
        (some { email := some "jane@example.com", amount := some 0,
                idempotencyKey := some "K2" }) 0 1 =
      (ApiResponse.badRequest, storeK1) :=
  validation_rejects_falsy storeK1
    { email := some "jane@example.com", amount := some 0, idempotencyKey := some "K2" }
    0 1 (Or.inr (Or.inr (Or.inr (Or.inl rfl))))

/-! ## Pagination deduplication client (quirky/page.tsx) -/

/-- `interface Fact { id; category; title; description }`; the category
union type `'Space' | 'Species' | 'Tech'` is modelled as `String`. -/
structure Fact where
  id : String
  category : String
  title : String
  description : String
deriving DecidableEq, Repr

/-- One pass of the deduplication loop of `fetchPage`
(quirky/page.tsx lines 44–54): thread the `seenIds` set (as a list of ids)
over the batch, collecting `uniqueItems` in order:

```
newBatch.forEach((item) => {
  if (!seenIds.current.has(item.id)) { seenIds.current.add(item.id); uniqueItems.push(item); }
});
```
-/
def dedupeStep (acc : List String × List Fact) (item : Fact) : List String × List Fact :=
  if item.id ∈ acc.1 then acc else (item.id :: acc.1, acc.2 ++ [item])

/-- A successful `fetchPage`: deduplicate the batch against `seenIds`, then
`setItems(prev => [...prev, ...uniqueItems])`. -/
def fetchPageStep (st : List String × List Fact) (batch : List Fact) :
    List String × List Fact :=
  let r := batch.foldl dedupeStep (st.1, [])
  (r.1, st.2 ++ r.2)

/-- The whole pagination session: every delivered batch applied in order,
starting from the empty `seenIds` set and empty items list. -/
def runPagination (batches : List (List Fact)) : List String × List Fact :=
  batches.foldl fetchPageStep ([], [])

/-- Folding the dedup loop with a non-empty accumulated item list is the
same as folding with an empty one and appending. -/
theorem dedupe_foldl_shift :
    ∀ (batch : List Fact) (s : List String) (u : List Fact),
      batch.foldl dedupeStep (s, u) =
        ((batch.foldl dedupeStep (s, [])).1, u ++ (batch.foldl dedupeStep (s, [])).2) := by
  intro batch
  induction batch with
  | nil => intro s u; simp
  | cons b rest ih =>
      intro s u
      by_cases hb : b.id ∈ s
      · simp only [List.foldl_cons, dedupeStep, hb, if_pos]
        exact ih s u
      · simp only [List.foldl_cons, dedupeStep, hb, if_neg, not_false_iff]
        rw [ih (b.id :: s) (u ++ [b]), ih (b.id :: s) ([] ++ [b])]
        simp

/-- `fetchPageStep` is the dedup fold carried out directly on the
accumulated state. -/
theorem fetchPageStep_eq (st : List String × List Fact) (batch : List Fact) :
    fetchPageStep st batch = batch.foldl dedupeStep (st.1, st.2) := by
  rw [fetchPageStep, dedupe_foldl_shift batch st.1 st.2]

/-- The dedup fold preserves the seen-set invariant: accumulated items have
pairwise distinct ids and every accumulated id is in the seen set. -/
theorem dedupe_foldl_inv :
    ∀ (batch : List Fact) (s : List String) (u : List Fact),
      (u.map Fact.id).Nodup → (∀ f ∈ u, f.id ∈ s) →
      ((batch.foldl dedupeStep (s, u)).2.map Fact.id).Nodup ∧
        ∀ f ∈ (batch.foldl dedupeStep (s, u)).2,
          f.id ∈ (batch.foldl dedupeStep (s, u)).1 := by
  intro batch
  induction batch with
  | nil => intro s u h1 h2; exact ⟨h1, h2⟩
  | cons b rest ih =>
      intro s u h1 h2
      by_cases hb : b.id ∈ s
      · simp only [List.foldl_cons, dedupeStep, hb, if_pos]
        exact ih s u h1 h2
      · simp only [List.foldl_cons, dedupeStep, hb, if_neg, not_false_iff]
        apply ih (b.id :: s) (u ++ [b])
        · rw [List.map_append, List.nodup_append]
          refine ⟨h1, List.nodup_singleton b.id, ?_⟩
          intro x hx hx'
          simp at hx'
          rcases List.mem_map.mp hx with ⟨f, hf, hfid⟩
          exact hb (hx' ▸ hfid ▸ h2 f hf)
        · intro f hf
          rcases List.mem_append.mp hf with hfu | hfb
          · exact List.mem_cons_of_mem _ (h2 f hfu)
          · simp at hfb
            rw [hfb]
            exact List.mem_cons_self _ _

/-- The invariant holds along any pagination session. -/
theorem runPagination_inv :
    ∀ (batches : List (List Fact)) (st : List String × List Fact),
      (st.2.map Fact.id).Nodup → (∀ f ∈ st.2, f.id ∈ st.1) →
      ((batches.foldl fetchPageStep st).2.map Fact.id).Nodup ∧
        ∀ f ∈ (batches.foldl fetchPageStep st).2,
          f.id ∈ (batches.foldl fetchPageStep st).1 := by
  intro batches
  induction batches with
  | nil => intro st h1 h2; exact ⟨h1, h2⟩
  | cons batch rest ih =>
      intro st h1 h2
      rw [List.foldl_cons, fetchPageStep_eq]
      have h := dedupe_foldl_inv batch st.1 st.2 h1 h2
      exact ih _ h.1 h.2

/-- C9: the accumulated items list of the pagination client never contains
two facts with the same id — for every sequence of fetched batches,
including batches overlapping previously delivered items, ids already in
the seen-id set are filtered out before appending, so the accumulated ids
stay pairwise distinct and are all registered in the seen set. -/
theorem pagination_unique_ids (batches : List (List Fact)) :
    ((runPagination batches).2.map Fact.id).Nodup ∧
    ∀ f ∈ (runPagination batches).2, f.id ∈ (runPagination batches).1 := by
  unfold runPagination
  exact runPagination_inv batches ([], []) List.nodup_nil (by intro f hf; cases hf)

/-- Counterexample to C6 as literally stated: the basic field validation
runs before the idempotency check, so a request whose `idempotencyKey`
`K1` is already recorded as accepted but whose `email` is missing is
answered 400, not with the cached success outcome. -/
theorem idempotent_replay_counterexample :
    storeK1 "K1" = some { email := "jane@example.com", amount := 25, date := 0 } ∧
    POST storeK1
        (some { email := none, amount := some 25, idempotencyKey := some "K1" }) 0 1 =
      (ApiResponse.badRequest, storeK1) ∧
    ApiResponse.badRequest ≠ ApiResponse.alreadyProcessed :=
  ⟨rfl, rfl, by decide⟩

end Bhumio
